import Mathlib

/-!
Verification of the csvtojson converter (`csvtojson.go`).

The embedding works at the level the claims speak about: an input is the
sequence of rows produced by Go's `encoding/csv` tokenizer (each row a list
of field strings), a record is the `map[string]string` built by
`processLine` (modelled as an association list with unique keys, built by
Go-map insertion), and the writer's output is the string it concatenates
onto the sink.

Library behaviour embedded from its documented semantics:
- `encoding/csv.Reader` with the default `FieldsPerRecord = 0` fixes the
  expected field count to the header's count and returns an error from
  `Read` for any later row with a different count.
- `encoding/json.Marshal` / `MarshalIndent` of a `map[string]string` emit
  the keys in ascending byte-wise (= code-point-wise, for UTF-8)
  lexicographic order, JSON-escaping keys and values, HTML-escaping
  `<`, `>`, `&` and escaping U+2028/U+2029.
-/

/-- One parsed CSV row: the list of field strings `csv.Reader.Read` yields. -/
abbrev Row := List String

/-- The Go `map[string]string` record, modelled as an association list with
unique keys.  Go map iteration order is unobservable here because the only
consumer (`encoding/json`) sorts the keys. -/
abbrev Record := List (String × String)

/-- Go-map assignment `recordMap[name] = value`: replace the binding in place
if the key is present, otherwise add a new binding. -/
def mapInsert (m : Record) (k v : String) : Record :=
  if m.any (fun p => p.1 == k) then
    m.map (fun p => if p.1 == k then (k, v) else p)
  else
    m ++ [(k, v)]

/-- `processLine` from `csvtojson.go`: reject a row whose field count
differs from the header's; otherwise set `recordMap[name] = dataList[i]`
for each header position `i`. -/
def processLine (headers dataList : List String) : Option Record :=
  if dataList.length ≠ headers.length then none
  else some ((List.zip headers dataList).foldl (fun m kv => mapInsert m kv.1 kv.2) [])

/-- The record `processLine` builds for a well-formed row. -/
def recordOf (headers dataList : List String) : Record :=
  (List.zip headers dataList).foldl (fun m kv => mapInsert m kv.1 kv.2) []

/-- Observable outcome of the parsing goroutine `processCsvFile`: the records
sent to the writer channel (in order), the skipped-line diagnostics printed
to stdout, and the fatal error (`exitGracefully`) if the run died. -/
structure CsvRun where
  records : List Record
  diags : List String
  fatal : Option String
  deriving Repr, DecidableEq

/-- The row loop of `processCsvFile`.  `reader.Read` with the default
`FieldsPerRecord` returns `csv.ErrFieldCount` for a row whose field count
differs from the header's; that error is not `io.EOF`, so the code calls
`exitGracefully` (fatal).  Only when `Read` succeeds does `processLine` run;
its error branch (log and `continue`) is therefore unreachable but is kept
in the model exactly as in the code. -/
def processRows (headers : List String) : List Row → CsvRun
  | [] => ⟨[], [], none⟩
  | row :: rest =>
    if row.length ≠ headers.length then
      ⟨[], [], some ("wrong number of fields")⟩
    else
      match processLine headers row with
      | none =>
        let r := processRows headers rest
        ⟨r.records, ("line does not match headers format, skipping line.") :: r.diags, r.fatal⟩
      | some rec =>
        let r := processRows headers rest
        ⟨rec :: r.records, r.diags, r.fatal⟩

/-- `processCsvFile` from `csvtojson.go`: read the header (an empty input
makes the first `Read` return `io.EOF`, which `check` turns into a fatal
exit), then run the row loop. -/
def processCsvFile (input : List Row) : CsvRun :=
  match input with
  | [] => ⟨[], [], some ("EOF")⟩
  | headers :: rows => processRows headers rows

/-- The `n`-th (mod 16) lower-case hexadecimal digit, as `encoding/json`
prints it: `0`-`9` then `a`-`f`. -/
def hexDigit (n : Nat) : Char :=
  if n % 16 < 10 then Char.ofNat (48 + n % 16) else Char.ofNat (87 + n % 16)

/-- JSON escaping of one character as performed by `encoding/json` with the
default HTML escaping used by `json.Marshal`. -/
def escapeChar (c : Char) : String :=
  if c = '"' then "\\\""
  else if c = '\\' then "\\\\"
  else if c = '\n' then "\\n"
  else if c = '\r' then "\\r"
  else if c = '\t' then "\\t"
  else if c = '<' then "\\u003c"
  else if c = '>' then "\\u003e"
  else if c = '&' then "\\u0026"
  else if c.toNat < 32 then
    "\\u00" ++ String.mk [hexDigit (c.toNat / 16), hexDigit (c.toNat % 16)]
  else if c.toNat = 8232 then "\\u2028"
  else if c.toNat = 8233 then "\\u2029"
  else String.mk [c]

/-- Escaped body of a JSON string literal, character by character. -/
def escData (cs : List Char) : List Char :=
  cs.foldr (fun c acc => (escapeChar c).data ++ acc) []

/-- A JSON string literal for `s`, as `encoding/json` renders it. -/
def escapeString (s : String) : String :=
  ⟨'"' :: escData s.data ++ ['"']⟩

/-- Lexicographic comparison of character sequences by code point.  Go
compares strings byte-wise lexicographically; on valid UTF-8 that order
coincides with code-point lexicographic order, so this is the embedding of
Go's string `<` used by `encoding/json` to sort object keys. -/
def charListLt : List Char → List Char → Bool
  | [], [] => false
  | [], _ :: _ => true
  | _ :: _, [] => false
  | c :: cs, d :: ds =>
    if c.toNat < d.toNat then true
    else if d.toNat < c.toNat then false
    else charListLt cs ds

/-- Go's `<` on strings. -/
def strLtb (a b : String) : Bool := charListLt a.data b.data

/-- Go's `<` on strings, as the ordering proposition used in statements. -/
def strLt (a b : String) : Prop := strLtb a b = true

/-- Go's `<=` on strings. -/
def strLeb (a b : String) : Bool := strLtb a b || a == b

/-- Order on map entries used when serializing a record: by key, ascending
in Go's string order. -/
def entryLe (p q : String × String) : Prop := strLeb p.1 q.1 = true

instance : DecidableRel entryLe := fun p q => inferInstanceAs (Decidable (strLeb p.1 q.1 = true))

/-- The entries of a record in the order `encoding/json` serializes them:
sorted by key, ascending. -/
def sortEntries (m : Record) : Record :=
  List.insertionSort entryLe m

/-- `"sep"`-joined concatenation, written exactly like the writer loop:
the first piece bare, every later piece preceded by the separator. -/
def joinSep (sep : String) : List String → String
  | [] => ""
  | x :: xs => xs.foldl (fun acc y => acc ++ sep ++ y) x

/-- One `"key":"value"` member of a compact JSON object. -/
def renderEntry (p : String × String) : String :=
  escapeString p.1 ++ ":" ++ escapeString p.2

/-- A compact JSON object over an already-ordered entry list. -/
def renderObj (es : List (String × String)) : String :=
  "\x7b" ++ joinSep "," (es.map renderEntry) ++ "\x7d"

/-- `json.Marshal` of a record: compact object, keys sorted ascending. -/
def jsonMarshal (m : Record) : String :=
  renderObj (sortEntries m)

/-- One `"key": "value"` member of an indented JSON object. -/
def renderEntryIndent (p : String × String) : String :=
  escapeString p.1 ++ ": " ++ escapeString p.2

/-- An indented JSON object over an already-ordered entry list, in the shape
`json.MarshalIndent(record, "   ", "   ")` produces (members on their own
lines behind prefix+indent, closing brace behind the prefix). -/
def renderObjIndent (es : List (String × String)) : String :=
  match es with
  | [] => "\x7b\x7d"
  | _ => "\x7b\n" ++ joinSep ",\n" (es.map (fun p => "      " ++ renderEntryIndent p)) ++ "\n   \x7d"

/-- `json.MarshalIndent(record, "   ", "   ")`: indented object, keys sorted
ascending. -/
def jsonMarshalIndent (m : Record) : String :=
  renderObjIndent (sortEntries m)

/-- `getJSONFunc` from `csvtojson.go`: the per-record serializer together
with the separator line-break, chosen by the pretty flag. -/
def getJSONFunc (pretty : Bool) : (Record → String) × String :=
  if pretty then (fun m => "   " ++ jsonMarshalIndent m, "\n")
  else (fun m => jsonMarshal m, "")

/-- `writeJSONFile` from `csvtojson.go`, as the full string written to the
sink: `"[" ++ breakLine`, then the records with `"," ++ breakLine` before
every record but the first, then `breakLine ++ "]"`. -/
def writeJSONFile (records : List Record) (pretty : Bool) : String :=
  let jf := getJSONFunc pretty
  "[" ++ jf.2 ++ joinSep ("," ++ jf.2) (records.map jf.1) ++ jf.2 ++ "]"

/-- The whole pipeline of `main`: parse, and if the parser did not die,
the complete document the writer puts on the sink; `none` when the run
ended with a fatal error (the document is never completed then). -/
def runPipeline (input : List Row) (pretty : Bool) : Option String :=
  let run := processCsvFile input
  match run.fatal with
  | some _ => none
  | none => some (writeJSONFile run.records pretty)

/-- A generic compact rendering of a JSON array of flat string-valued
objects (entry lists taken in the order given). -/
def renderDoc (objs : List (List (String × String))) : String :=
  "[" ++ joinSep "," (objs.map renderObj) ++ "]"

/-- The same document in the pretty layout of the writer: array frame with
line breaks, each object indented by three spaces. -/
def renderDocIndent (objs : List (List (String × String))) : String :=
  "[" ++ "\n" ++ joinSep ",\n" (objs.map (fun es => "   " ++ renderObjIndent es)) ++ "\n" ++ "]"

/-- The value the last (rightmost) pair with key `k` carries, scanning the
pairs left to right; `none` if no pair has key `k`. -/
def lastVal (k : String) (ps : List (String × String)) : Option String :=
  ps.foldl (fun acc p => if p.1 == k then some p.2 else acc) none

/-- Is `c` JSON whitespace? -/
def isWsChar (c : Char) : Bool :=
  c == ' ' || c == '\n' || c == '\t' || c == '\r'

/-- Remove JSON-insignificant whitespace: drop whitespace characters that
occur outside string literals, tracking the in-string and after-backslash
states. -/
def stripAux : Bool → Bool → List Char → List Char
  | _, _, [] => []
  | false, _, c :: cs =>
    if c == '"' then c :: stripAux true false cs
    else if isWsChar c then stripAux false false cs
    else c :: stripAux false false cs
  | true, false, c :: cs =>
    if c == '\\' then c :: stripAux true true cs
    else if c == '"' then c :: stripAux false false cs
    else c :: stripAux true false cs
  | true, true, c :: cs => c :: stripAux true false cs

/-- Remove the JSON-insignificant whitespace of a document: two documents
with the same image under this map are token-for-token identical JSON and
parse to the same data structure. -/
def stripJsonWs (s : String) : String :=
  ⟨stripAux false false s.data⟩

/-- A fragment `l` of a JSON document, entered in the outside-string state,
strips to `out`: prepended to any continuation, whitespace removal maps
`l ++ rest` to `out` followed by the stripped continuation, and leaves the
state outside a string literal again. -/
def OutPiece (l out : List Char) : Prop :=
  ∀ cs, stripAux false false (l ++ cs) = out ++ stripAux false false cs

/-- Modelled from the spec sentence under test in C2: an object whose keys
appear in the header's column order.  This is the rendering the spec
describes, to be compared against what the code produces. -/
def specHeaderOrderObj (headers dataList : List String) : String :=
  "\x7b" ++ joinSep "," ((List.zip headers dataList).map renderEntry) ++ "\x7d"

/-- First-match lookup in an association list; on the unique-key lists built
by `mapInsert` this is the Go map read `record[k]`. -/
def recGet (m : Record) (k : String) : Option String :=
  match m with
  | [] => none
  | p :: rest => if p.1 = k then some p.2 else recGet rest k

theorem any_key_iff (m : Record) (k : String) :
    m.any (fun p => p.1 == k) = true ↔ k ∈ m.map Prod.fst := by
  simp only [List.any_eq_true, List.mem_map, beq_iff_eq]


theorem mapInsert_keys (m : Record) (k v : String) :
    (mapInsert m k v).map Prod.fst =
      if m.any (fun p => p.1 == k) then m.map Prod.fst else m.map Prod.fst ++ [k] := by
  unfold mapInsert
  split
  · rw [List.map_map]
    apply List.map_congr_left
    intro p _
    by_cases h : p.1 = k
    · have hb : (p.1 == k) = true := beq_iff_eq.mpr h
      simp only [Function.comp_apply, hb, if_true]
      exact h.symm
    · have hb : (p.1 == k) = false := beq_eq_false_iff_ne.mpr h
      simp [Function.comp_apply, hb, h]
  · simp

theorem mapInsert_entry_mem {m : Record} {k v : String} {p : String × String}
    (h : p ∈ mapInsert m k v) : p ∈ m ∨ p = (k, v) := by
  unfold mapInsert at h
  split at h
  · rcases List.mem_map.mp h with ⟨q, hq, hrepl⟩
    by_cases hk : q.1 = k
    · have hb : (q.1 == k) = true := beq_iff_eq.mpr hk
      rw [hb] at hrepl
      exact Or.inr (by simpa using hrepl.symm)
    · have hb : (q.1 == k) = false := beq_eq_false_iff_ne.mpr hk
      rw [hb] at hrepl
      simp at hrepl
      exact Or.inl (hrepl ▸ hq)
  · rcases List.mem_append.mp h with h1 | h1
    · exact Or.inl h1
    · exact Or.inr (List.mem_singleton.mp h1)

theorem mapInsert_keys_nodup {m : Record} (k v : String)
    (h : (m.map Prod.fst).Nodup) : ((mapInsert m k v).map Prod.fst).Nodup := by
  rw [mapInsert_keys]
  split
  · exact h
  · next hany =>
    rw [List.nodup_append]
    refine ⟨h, List.nodup_singleton k, ?_⟩
    rw [List.disjoint_singleton]
    intro hmem
    rw [Bool.not_eq_true] at hany
    exact absurd ((any_key_iff m k).mpr hmem) (by simp [hany])

theorem mapInsert_mem_keys (m : Record) (k v k' : String) :
    k' ∈ (mapInsert m k v).map Prod.fst ↔ k' ∈ m.map Prod.fst ∨ k' = k := by
  rw [mapInsert_keys]
  split
  · next hany =>
    have hk : k ∈ m.map Prod.fst := (any_key_iff m k).mp hany
    constructor
    · exact Or.inl
    · rintro (h | rfl)
      · exact h
      · exact hk
  · simp

theorem recGet_map_replace (m : Record) (k v k' : String) (hne : k' ≠ k) :
    recGet (m.map (fun p => if p.1 == k then (k, v) else p)) k' = recGet m k' := by
  induction m with
  | nil => rfl
  | cons p rest ih =>
    rw [List.map_cons]
    by_cases h : p.1 = k
    · have hb : (p.1 == k) = true := beq_iff_eq.mpr h
      rw [hb]
      show recGet ((k, v) :: _) k' = recGet (p :: rest) k'
      rw [recGet, recGet, if_neg (fun hh : (k, v).1 = k' => hne hh.symm),
        if_neg (fun hh : p.1 = k' => hne (h ▸ hh).symm), ih]
    · have hb : (p.1 == k) = false := beq_eq_false_iff_ne.mpr h
      rw [hb]
      show recGet (p :: _) k' = recGet (p :: rest) k'
      rw [recGet, recGet]
      split
      · rfl
      · exact ih

theorem recGet_map_replace_self (m : Record) (k v : String)
    (h : k ∈ m.map Prod.fst) :
    recGet (m.map (fun p => if p.1 == k then (k, v) else p)) k = some v := by
  induction m with
  | nil => simp at h
  | cons p rest ih =>
    rw [List.map_cons]
    by_cases hp : p.1 = k
    · have hb : (p.1 == k) = true := beq_iff_eq.mpr hp
      rw [hb]
      show recGet ((k, v) :: _) k = some v
      rw [recGet, if_pos rfl]
    · have hb : (p.1 == k) = false := beq_eq_false_iff_ne.mpr hp
      rw [hb]
      show recGet (p :: _) k = some v
      rw [recGet, if_neg hp]
      apply ih
      rcases List.mem_map.mp h with ⟨q, hq, hfst⟩
      rcases List.mem_cons.mp hq with rfl | hq'
      · exact absurd hfst hp
      · exact List.mem_map.mpr ⟨q, hq', hfst⟩

theorem recGet_append_single (m : Record) (k v k' : String)
    (h : k ∉ m.map Prod.fst) :
    recGet (m ++ [(k, v)]) k' = if k' = k then some v else recGet m k' := by
  induction m with
  | nil =>
    by_cases hk : k' = k
    · simp [recGet, hk]
    · simp [recGet, hk, Ne.symm hk]
  | cons p rest ih =>
    have hpk : p.1 ≠ k := fun hh => h (List.mem_map.mpr ⟨p, List.mem_cons_self p rest, hh⟩)
    have h' : k ∉ rest.map Prod.fst := by
      intro hh
      rcases List.mem_map.mp hh with ⟨q, hq, hfst⟩
      exact h (List.mem_map.mpr ⟨q, List.mem_cons_of_mem p hq, hfst⟩)
    rw [List.cons_append, recGet, recGet, ih h']
    by_cases hp : p.1 = k'
    · rw [if_pos hp, if_pos hp, if_neg (fun hh : k' = k => hpk (hp.trans hh))]
    · rw [if_neg hp, if_neg hp]

theorem recGet_mapInsert (m : Record) (k v k' : String) :
    recGet (mapInsert m k v) k' = if k' = k then some v else recGet m k' := by
  unfold mapInsert
  split
  · next hany =>
    by_cases hk : k' = k
    · subst hk
      rw [if_pos rfl, recGet_map_replace_self m k' v ((any_key_iff m k').mp hany)]
    · rw [if_neg hk, recGet_map_replace m k v k' hk]
  · next hany =>
    refine recGet_append_single m k v k' (fun hh => hany ?_)
    exact (any_key_iff m k).mpr hh

theorem build_keys_nodup : ∀ (ps : List (String × String)) (m : Record),
    (m.map Prod.fst).Nodup →
    ((ps.foldl (fun m kv => mapInsert m kv.1 kv.2) m).map Prod.fst).Nodup
  | [], _, h => h
  | p :: ps, m, h =>
    build_keys_nodup ps (mapInsert m p.1 p.2) (mapInsert_keys_nodup p.1 p.2 h)

theorem build_mem_keys : ∀ (ps : List (String × String)) (m : Record) (k : String),
    k ∈ (ps.foldl (fun m kv => mapInsert m kv.1 kv.2) m).map Prod.fst ↔
      k ∈ m.map Prod.fst ∨ k ∈ ps.map Prod.fst := by
  intro ps
  induction ps with
  | nil => simp
  | cons p ps ih =>
    intro m k
    rw [List.foldl_cons, ih, mapInsert_mem_keys]
    simp only [List.map_cons, List.mem_cons]
    tauto

theorem build_entry_mem : ∀ (ps : List (String × String)) (m : Record)
    (p : String × String),
    p ∈ ps.foldl (fun m kv => mapInsert m kv.1 kv.2) m → p ∈ m ∨ p ∈ ps := by
  intro ps
  induction ps with
  | nil => intro m p h; exact Or.inl h
  | cons q ps ih =>
    intro m p h
    rw [List.foldl_cons] at h
    rcases ih (mapInsert m q.1 q.2) p h with h1 | h1
    · rcases mapInsert_entry_mem h1 with h2 | h2
      · exact Or.inl h2
      · exact Or.inr (List.mem_cons.mpr (Or.inl (by cases q; simpa using h2)))
    · exact Or.inr (List.mem_cons_of_mem q h1)

theorem lastVal_foldl (k : String) : ∀ (ps : List (String × String)) (acc : Option String),
    ps.foldl (fun a p => if p.1 == k then some p.2 else a) acc =
      (lastVal k ps).elim acc some := by
  intro ps
  induction ps with
  | nil => intro acc; rfl
  | cons p ps ih =>
    intro acc
    rw [List.foldl_cons, ih]
    conv_rhs => rw [lastVal, List.foldl_cons, ih]
    by_cases h : p.1 = k
    · have hb : (p.1 == k) = true := beq_iff_eq.mpr h
      rw [hb]
      cases lastVal k ps <;> rfl
    · have hb : (p.1 == k) = false := beq_eq_false_iff_ne.mpr h
      rw [hb]
      cases lastVal k ps <;> rfl

theorem recGet_build (k : String) : ∀ (ps : List (String × String)) (m : Record),
    recGet (ps.foldl (fun m kv => mapInsert m kv.1 kv.2) m) k =
      (lastVal k ps).elim (recGet m k) some := by
  intro ps
  induction ps with
  | nil => intro m; rfl
  | cons p ps ih =>
    intro m
    rw [List.foldl_cons, ih, recGet_mapInsert]
    conv_rhs => rw [lastVal, List.foldl_cons, lastVal_foldl]
    by_cases h : p.1 = k
    · have hb : (p.1 == k) = true := beq_iff_eq.mpr h
      rw [hb, if_pos h.symm]
      cases lastVal k ps <;> rfl
    · have hb : (p.1 == k) = false := beq_eq_false_iff_ne.mpr h
      rw [hb, if_neg (fun hh : k = p.1 => h hh.symm)]
      cases lastVal k ps <;> rfl

theorem mapInsert_length_of_not_mem (m : Record) (k v : String)
    (h : k ∉ m.map Prod.fst) : (mapInsert m k v).length = m.length + 1 := by
  unfold mapInsert
  rw [if_neg (fun hh => h ((any_key_iff m k).mp hh))]
  simp

theorem build_length : ∀ (ps : List (String × String)) (m : Record),
    (ps.map Prod.fst).Nodup → (∀ p ∈ ps, p.1 ∉ m.map Prod.fst) →
    (ps.foldl (fun m kv => mapInsert m kv.1 kv.2) m).length = m.length + ps.length := by
  intro ps
  induction ps with
  | nil => intro m _ _; rfl
  | cons p ps ih =>
    intro m hnd hdis
    rw [List.map_cons, List.nodup_cons] at hnd
    rw [List.foldl_cons]
    have hm : p.1 ∉ m.map Prod.fst := hdis p (List.mem_cons_self p ps)
    have hkeys : (mapInsert m p.1 p.2).map Prod.fst = m.map Prod.fst ++ [p.1] := by
      rw [mapInsert_keys, if_neg (fun hh => hm ((any_key_iff m p.1).mp hh))]
    have hdis' : ∀ q ∈ ps, q.1 ∉ (mapInsert m p.1 p.2).map Prod.fst := by
      intro q hq
      rw [hkeys, List.mem_append, List.mem_singleton]
      rintro (hin | heq)
      · exact hdis q (List.mem_cons_of_mem p hq) hin
      · exact hnd.1 (heq ▸ List.mem_map.mpr ⟨q, hq, rfl⟩)
    rw [ih (mapInsert m p.1 p.2) hnd.2 hdis',
      mapInsert_length_of_not_mem m p.1 p.2 hm]
    simp [Nat.add_assoc, Nat.add_comm 1]

theorem mem_zip_get? {α β : Type} : ∀ (l₁ : List α) (l₂ : List β) (p : α × β),
    p ∈ List.zip l₁ l₂ → ∃ j, l₁.get? j = some p.1 ∧ l₂.get? j = some p.2 := by
  intro l₁
  induction l₁ with
  | nil => intro l₂ p h; simp [List.zip] at h
  | cons a l₁ ih =>
    intro l₂ p h
    cases l₂ with
    | nil => simp [List.zip] at h
    | cons b l₂ =>
      rcases List.mem_cons.mp h with rfl | h'
      · exact ⟨0, rfl, rfl⟩
      · rcases ih l₂ p h' with ⟨j, h1, h2⟩
        exact ⟨j + 1, h1, h2⟩

theorem recordOf_keys_nodup (h r : List String) :
    ((recordOf h r).map Prod.fst).Nodup :=
  build_keys_nodup (List.zip h r) [] List.nodup_nil

theorem recordOf_mem_keys (h r : List String) (hlen : r.length = h.length)
    (k : String) : k ∈ (recordOf h r).map Prod.fst ↔ k ∈ h := by
  unfold recordOf
  rw [build_mem_keys, List.map_fst_zip h r (le_of_eq hlen.symm)]
  simp

theorem recordOf_entry (h r : List String) {p : String × String}
    (hp : p ∈ recordOf h r) :
    ∃ j, h.get? j = some p.1 ∧ r.get? j = some p.2 := by
  rcases build_entry_mem (List.zip h r) [] p hp with h1 | h1
  · simp at h1
  · exact mem_zip_get? h r p h1

theorem recordOf_length (h r : List String) (hlen : r.length = h.length)
    (hnd : h.Nodup) : (recordOf h r).length = h.length := by
  unfold recordOf
  rw [build_length (List.zip h r) [] (by rw [List.map_fst_zip h r (le_of_eq hlen.symm)]; exact hnd) (by simp)]
  rw [List.length_zip, hlen, Nat.min_self, List.length_nil, Nat.zero_add]

theorem recGet_recordOf (h r : List String) (k : String) :
    recGet (recordOf h r) k = lastVal k (List.zip h r) := by
  unfold recordOf
  rw [recGet_build]
  cases lastVal k (List.zip h r) <;> rfl

theorem processLine_eq_some (h r : List String) (hlen : r.length = h.length) :
    processLine h r = some (recordOf h r) := by
  simp [processLine, recordOf, hlen]

theorem processLine_eq_none (h r : List String) (hlen : r.length ≠ h.length) :
    processLine h r = none := by
  simp [processLine, hlen]

theorem processRows_all_wf (h : List String) (rows : List Row)
    (hw : ∀ r ∈ rows, r.length = h.length) :
    processRows h rows = ⟨rows.map (fun r => recordOf h r), [], none⟩ := by
  induction rows with
  | nil => rfl
  | cons row rest ih =>
    have hlen : row.length = h.length := hw row (List.mem_cons_self row rest)
    rw [processRows, if_neg (by rw [hlen]; exact fun hh => hh rfl),
      processLine_eq_some h row hlen,
      ih (fun r hr => hw r (List.mem_cons_of_mem row hr))]
    rfl

theorem processRows_records_mem (h : List String) (rows : List Row)
    (rec : Record) (hmem : rec ∈ (processRows h rows).records) :
    ∃ r, r ∈ rows ∧ r.length = h.length ∧ processLine h r = some rec := by
  induction rows with
  | nil => simp [processRows] at hmem
  | cons row rest ih =>
    rw [processRows] at hmem
    by_cases hlen : row.length = h.length
    · rw [if_neg (by rw [hlen]; exact fun hh => hh rfl),
        processLine_eq_some h row hlen] at hmem
      rcases List.mem_cons.mp hmem with rfl | hmem'
      · exact ⟨row, List.mem_cons_self row rest, hlen, processLine_eq_some h row hlen⟩
      · rcases ih hmem' with ⟨r, hr, hl, hp⟩
        exact ⟨r, List.mem_cons_of_mem row hr, hl, hp⟩
    · rw [if_pos hlen] at hmem
      simp at hmem

theorem char_eq_of_toNat_eq {c d : Char} (h : c.toNat = d.toNat) : c = d :=
  Char.ofNat_toNat c ▸ Char.ofNat_toNat d ▸ congrArg Char.ofNat h

theorem charListLt_trans : ∀ (l₁ l₂ l₃ : List Char),
    charListLt l₁ l₂ = true → charListLt l₂ l₃ = true → charListLt l₁ l₃ = true := by
  intro l₁
  induction l₁ with
  | nil =>
    intro l₂ l₃ h12 h23
    cases l₂ with
    | nil => exact absurd h12 (by simp [charListLt])
    | cons y ys =>
      cases l₃ with
      | nil => exact absurd h23 (by simp [charListLt])
      | cons z zs => simp [charListLt]
  | cons x xs ih =>
    intro l₂ l₃ h12 h23
    cases l₂ with
    | nil => exact absurd h12 (by simp [charListLt])
    | cons y ys =>
      cases l₃ with
      | nil => exact absurd h23 (by simp [charListLt])
      | cons z zs =>
        rw [charListLt] at h12 h23 ⊢
        by_cases hxy : x.toNat < y.toNat
        · rw [if_pos hxy] at h12
          by_cases hyz : y.toNat < z.toNat
          · rw [if_pos (Nat.lt_trans hxy hyz)]
          · rw [if_neg hyz] at h23
            by_cases hzy : z.toNat < y.toNat
            · rw [if_pos hzy] at h23; exact absurd h23 (by simp)
            · rw [if_pos (by omega : x.toNat < z.toNat)]
        · rw [if_neg hxy] at h12
          by_cases hyx : y.toNat < x.toNat
          · rw [if_pos hyx] at h12; exact absurd h12 (by simp)
          · rw [if_neg hyx] at h12
            by_cases hyz : y.toNat < z.toNat
            · rw [if_pos (by omega : x.toNat < z.toNat)]
            · rw [if_neg hyz] at h23
              by_cases hzy : z.toNat < y.toNat
              · rw [if_pos hzy] at h23; exact absurd h23 (by simp)
              · rw [if_neg hzy] at h23
                rw [if_neg (by omega : ¬x.toNat < z.toNat),
                  if_neg (by omega : ¬z.toNat < x.toNat)]
                exact ih ys zs h12 h23

theorem charListLt_trichotomy : ∀ (l₁ l₂ : List Char),
    charListLt l₁ l₂ = true ∨ charListLt l₂ l₁ = true ∨ l₁ = l₂ := by
  intro l₁
  induction l₁ with
  | nil =>
    intro l₂
    cases l₂ with
    | nil => exact Or.inr (Or.inr rfl)
    | cons y ys => exact Or.inl (by simp [charListLt])
  | cons x xs ih =>
    intro l₂
    cases l₂ with
    | nil => exact Or.inr (Or.inl (by simp [charListLt]))
    | cons y ys =>
      by_cases hxy : x.toNat < y.toNat
      · exact Or.inl (by rw [charListLt, if_pos hxy])
      · by_cases hyx : y.toNat < x.toNat
        · exact Or.inr (Or.inl (by rw [charListLt, if_pos hyx]))
        · have hxy' : x = y := char_eq_of_toNat_eq (by omega)
          subst hxy'
          rcases ih ys with h | h | h
          · exact Or.inl (by rw [charListLt, if_neg hxy, if_neg hxy]; exact h)
          · exact Or.inr (Or.inl (by rw [charListLt, if_neg hxy, if_neg hxy]; exact h))
          · exact Or.inr (Or.inr (by rw [h]))

theorem strLeb_iff (a b : String) :
    strLeb a b = true ↔ strLtb a b = true ∨ a = b := by
  simp [strLeb, Bool.or_eq_true, beq_iff_eq]

theorem entryLe_total : IsTotal (String × String) entryLe := by
  constructor
  intro p q
  unfold entryLe
  rw [strLeb_iff, strLeb_iff]
  rcases charListLt_trichotomy p.1.data q.1.data with h | h | h
  · exact Or.inl (Or.inl h)
  · exact Or.inr (Or.inl h)
  · exact Or.inl (Or.inr (String.ext h))

theorem entryLe_trans : IsTrans (String × String) entryLe := by
  constructor
  intro p q r hpq hqr
  unfold entryLe at hpq hqr ⊢
  rw [strLeb_iff] at hpq hqr ⊢
  rcases hpq with h1 | h1
  · rcases hqr with h2 | h2
    · exact Or.inl (charListLt_trans _ _ _ h1 h2)
    · exact Or.inl (h2 ▸ h1)
  · rcases hqr with h2 | h2
    · exact Or.inl (by rw [strLtb, h1]; exact h2)
    · exact Or.inr (h1.trans h2)

theorem sortEntries_perm (m : Record) : List.Perm (sortEntries m) m :=
  List.perm_insertionSort entryLe m

theorem sortEntries_keys_sorted_le (m : Record) :
    ((sortEntries m).map Prod.fst).Pairwise (fun a b => strLeb a b = true) := by
  have hs := @List.sorted_insertionSort (String × String) entryLe _ entryLe_total entryLe_trans m
  exact List.pairwise_map.mpr hs

theorem sortEntries_keys_sorted_lt (m : Record)
    (hnd : (m.map Prod.fst).Nodup) :
    ((sortEntries m).map Prod.fst).Pairwise strLt := by
  have hperm : List.Perm ((sortEntries m).map Prod.fst) (m.map Prod.fst) :=
    (sortEntries_perm m).map Prod.fst
  have hnd' : ((sortEntries m).map Prod.fst).Nodup := hperm.nodup_iff.mpr hnd
  have hle := sortEntries_keys_sorted_le m
  refine (hle.and hnd').imp (fun hab => ?_)
  rcases (strLeb_iff _ _).mp hab.1 with h | h
  · exact h
  · exact absurd h hab.2

theorem writeJSONFile_compact_eq (recs : List Record) :
    writeJSONFile recs false = renderDoc (recs.map sortEntries) := by
  unfold writeJSONFile renderDoc
  have h1 : getJSONFunc false = (fun m => jsonMarshal m, "") := rfl
  rw [h1]
  simp only [String.append_empty, List.map_map]
  rfl

theorem writeJSONFile_pretty_eq (recs : List Record) :
    writeJSONFile recs true = renderDocIndent (recs.map sortEntries) := by
  unfold writeJSONFile renderDocIndent
  have h1 : getJSONFunc true = (fun m => "   " ++ jsonMarshalIndent m, "\n") := rfl
  rw [h1]
  simp only [List.map_map]
  have h2 : ("," ++ "\n" : String) = ",\n" := rfl
  rw [h2]
  rfl

/-- C1: for an input whose first line is the header `h` and whose data rows
all have exactly `h.length` fields, the run completes, the writer receives
exactly one record per data row in row order, the complete compact document
is a JSON array with one object per record, and each object's key set is
exactly the set of column names of `h`, each value being the cell of a
matching column of its row. -/
theorem claim_C1_well_formed_shape (h : Row) (rows : List Row)
    (hw : ∀ r ∈ rows, r.length = h.length) :
    (processCsvFile (h :: rows)).fatal = none ∧
    (processCsvFile (h :: rows)).records = rows.map (fun r => recordOf h r) ∧
    (processCsvFile (h :: rows)).records.length = rows.length ∧
    writeJSONFile (processCsvFile (h :: rows)).records false
      = renderDoc ((processCsvFile (h :: rows)).records.map sortEntries) ∧
    ∀ r ∈ rows,
      (∀ k, k ∈ (recordOf h r).map Prod.fst ↔ k ∈ h) ∧
      ∀ p ∈ recordOf h r, ∃ j, h.get? j = some p.1 ∧ r.get? j = some p.2 := by
  have hrun : processCsvFile (h :: rows) = ⟨rows.map (fun r => recordOf h r), [], none⟩ := by
    show processRows h rows = _
    exact processRows_all_wf h rows hw
  rw [hrun]
  refine ⟨rfl, rfl, by simp, writeJSONFile_compact_eq _, ?_⟩
  intro r hr
  exact ⟨recordOf_mem_keys h r (hw r hr), fun p hp => recordOf_entry h r hp⟩

/-- Witness for C1 at a concrete two-column, two-row input. -/
theorem claim_C1_witness :
    (processCsvFile [["a","b"],["1","2"],["3","4"]]).fatal = none ∧
    (processCsvFile [["a","b"],["1","2"],["3","4"]]).records
      = [["1","2"],["3","4"]].map (fun r => recordOf ["a","b"] r) ∧
    (processCsvFile [["a","b"],["1","2"],["3","4"]]).records.length
      = ([["1","2"],["3","4"]] : List Row).length ∧
    writeJSONFile (processCsvFile [["a","b"],["1","2"],["3","4"]]).records false
      = renderDoc ((processCsvFile [["a","b"],["1","2"],["3","4"]]).records.map sortEntries) ∧
    ∀ r ∈ ([["1","2"],["3","4"]] : List Row),
      (∀ k, k ∈ (recordOf ["a","b"] r).map Prod.fst ↔ k ∈ ["a","b"]) ∧
      ∀ p ∈ recordOf ["a","b"] r,
        ∃ j, (["a","b"] : Row).get? j = some p.1 ∧ r.get? j = some p.2 :=
  claim_C1_well_formed_shape ["a","b"] [["1","2"],["3","4"]] (by decide)

/-- C2 counterexample: with header `b,a` and row `1,2`, the code renders
the object with the keys in sorted order `a,b`, not in the header order
`b,a` demanded by the claim. -/
theorem claim_C2_counterexample :
    runPipeline [["b","a"],["1","2"]] false = some ("[\x7b\"a\":\"2\",\"b\":\"1\"\x7d]") ∧
    "[" ++ specHeaderOrderObj ["b","a"] ["1","2"] ++ "]" = "[\x7b\"b\":\"1\",\"a\":\"2\"\x7d]" ∧
    ¬ runPipeline [["b","a"],["1","2"]] false
        = some ("[" ++ specHeaderOrderObj ["b","a"] ["1","2"] ++ "]") := by
  decide

/-- C2 amended: in both compact and pretty mode every rendered object lists
its keys in ascending Go-string (byte-wise lexicographic) order, not in
header order; the output is still deterministic for a given input. -/
theorem claim_C2_amended_sorted_not_header_order (h : Row) (rows : List Row) :
    writeJSONFile (processCsvFile (h :: rows)).records false
      = renderDoc ((processCsvFile (h :: rows)).records.map sortEntries) ∧
    writeJSONFile (processCsvFile (h :: rows)).records true
      = renderDocIndent ((processCsvFile (h :: rows)).records.map sortEntries) ∧
    ∀ rec ∈ (processCsvFile (h :: rows)).records,
      ((sortEntries rec).map Prod.fst).Pairwise strLt := by
  refine ⟨writeJSONFile_compact_eq _, writeJSONFile_pretty_eq _, ?_⟩
  intro rec hrec
  rcases processRows_records_mem h rows rec hrec with ⟨r, _, hlen, hp⟩
  rw [processLine_eq_some h r hlen] at hp
  rw [(Option.some.inj hp).symm]
  exact sortEntries_keys_sorted_lt _ (recordOf_keys_nodup h r)

/-- C3 counterexample: for the duplicate header `a,a` and the well-formed
row `1,2` the built map has a single entry, so `len(record)` is 1 while
`len(header)` is 2. -/
theorem claim_C3_counterexample :
    processLine ["a","a"] ["1","2"] = some ([("a","2")]) ∧
    ([("a","2")] : Record).length ≠ (["a","a"] : List String).length := by
  decide

/-- C3 amended: a record is built exactly from rows whose field count
equals the header's; it has exactly one entry per distinct header name
(keys are duplicate-free and range over exactly the header's names), and
`len(record) = len(header)` holds whenever the header's names are
distinct. -/
theorem claim_C3_amended_one_entry_per_distinct_name (h r : List String)
    (hlen : r.length = h.length) :
    processLine h r = some (recordOf h r) ∧
    ((recordOf h r).map Prod.fst).Nodup ∧
    (∀ k, k ∈ (recordOf h r).map Prod.fst ↔ k ∈ h) ∧
    (h.Nodup → (recordOf h r).length = h.length) :=
  ⟨processLine_eq_some h r hlen, recordOf_keys_nodup h r,
    recordOf_mem_keys h r hlen, fun hnd => recordOf_length h r hlen hnd⟩

/-- Witness for the amended C3 at a duplicate-free header. -/
theorem claim_C3_amended_witness :
    processLine ["a","b"] ["1","2"] = some (recordOf ["a","b"] ["1","2"]) ∧
    ((recordOf ["a","b"] ["1","2"]).map Prod.fst).Nodup ∧
    (∀ k, k ∈ (recordOf ["a","b"] ["1","2"]).map Prod.fst ↔ k ∈ ["a","b"]) ∧
    ((["a","b"] : List String).Nodup →
      (recordOf ["a","b"] ["1","2"]).length = (["a","b"] : List String).length) :=
  claim_C3_amended_one_entry_per_distinct_name ["a","b"] ["1","2"] (by decide)

/-- C4 at its failing input: of the two well-formed rows around the
mismatched row `3,4,5`, only the first ever reaches the writer, because
the csv reader's field-count error aborts the run; the second well-formed
row is never serialized at any index. -/
theorem claim_C4_second_well_formed_row_lost :
    (processCsvFile [["id","name"],["1","Ann"],["3","4","5"],["2","Bo"]]).records
      = [recordOf ["id","name"] ["1","Ann"]] ∧
    (processCsvFile [["id","name"],["1","Ann"],["3","4","5"],["2","Bo"]]).records.length = 1 ∧
    ([["1","Ann"],["3","4","5"],["2","Bo"]].countP (fun r => r.length == 2)) = 2 ∧
    (processCsvFile [["id","name"],["1","Ann"],["3","4","5"],["2","Bo"]]).fatal.isSome = true := by
  decide

/-- C5 at its failing input: the mismatched row `3,4,5` produces no skip
diagnostic and does not let parsing continue; instead the run dies with the
csv reader's field-count error and no complete document is written. -/
theorem claim_C5_mismatch_is_fatal_not_skipped :
    (processCsvFile [["id","name"],["1","Ann"],["3","4","5"],["2","Bo"]]).diags = [] ∧
    (processCsvFile [["id","name"],["1","Ann"],["3","4","5"],["2","Bo"]]).fatal
      = some ("wrong number of fields") ∧
    runPipeline [["id","name"],["1","Ann"],["3","4","5"],["2","Bo"]] false = none := by
  decide

/-- C7: on a well-formed row the record contains one entry per distinct
header name, and the value stored under each name is the cell of the last
(rightmost) occurrence of that name in the header, later duplicates
overwriting earlier ones. -/
theorem claim_C7_last_duplicate_wins (h r : List String)
    (hlen : r.length = h.length) :
    processLine h r = some (recordOf h r) ∧
    ((recordOf h r).map Prod.fst).Nodup ∧
    (∀ k, k ∈ (recordOf h r).map Prod.fst ↔ k ∈ h) ∧
    (∀ k, recGet (recordOf h r) k = lastVal k (List.zip h r)) :=
  ⟨processLine_eq_some h r hlen, recordOf_keys_nodup h r,
    recordOf_mem_keys h r hlen, fun k => recGet_recordOf h r k⟩

/-- Witness for C7: with header `a,b,a` and row `1,2,3` the key `a` holds
the value of the rightmost `a` column. -/
theorem claim_C7_witness :
    recGet (recordOf ["a","b","a"] ["1","2","3"]) "a" = some ("3") := by
  have hw := (claim_C7_last_duplicate_wins ["a","b","a"] ["1","2","3"] (by decide)).2.2.2 "a"
  rw [hw]
  decide

/-- C8: an empty input (no header line) ends the run with the fatal read
error instead of an empty array, and every element of the output comes
from a data row of the tail of the input, never from the header line. -/
theorem claim_C8_empty_fatal_header_not_emitted :
    ((processCsvFile []).fatal = some ("EOF") ∧ ∀ pretty, runPipeline [] pretty = none) ∧
    ∀ (h : Row) (rows : List Row) (rec : Record),
      rec ∈ (processCsvFile (h :: rows)).records →
      ∃ r, r ∈ rows ∧ r.length = h.length ∧ processLine h r = some rec :=
  ⟨⟨rfl, fun _ => rfl⟩, fun h rows rec hmem => processRows_records_mem h rows rec hmem⟩

/-- Witness for C8 on a one-column input. -/
theorem claim_C8_witness :
    ∃ r, r ∈ [["1"]] ∧ r.length = (["a"] : Row).length ∧
      processLine ["a"] r = some ([("a","1")]) :=
  claim_C8_empty_fatal_header_not_emitted.2 ["a"] [["1"]] [("a","1")] (by decide)

/-- C9: a header-only input yields exactly the two-character compact
document. -/
theorem claim_C9_header_only_empty_array (h : Row) :
    runPipeline [h] false = some ("[]") := by
  have h1 : processCsvFile [h] = ⟨[], [], none⟩ := rfl
  have h2 : writeJSONFile [] false = "[]" := by decide
  simp [runPipeline, h1, h2]

/-- C10: every record a well-formed row produces is serialized, in both
modes, with its keys in strictly ascending Go-string (byte-wise
lexicographic) order, independent of the header's column order. -/
theorem claim_C10_keys_sorted_both_modes (h r : List String) (rec : Record)
    (hlen : r.length = h.length) (hrec : processLine h r = some rec) :
    ((sortEntries rec).map Prod.fst).Pairwise strLt ∧
    List.Perm (sortEntries rec) rec ∧
    (getJSONFunc false).1 rec = renderObj (sortEntries rec) ∧
    (getJSONFunc true).1 rec = "   " ++ renderObjIndent (sortEntries rec) := by
  rw [processLine_eq_some h r hlen] at hrec
  refine ⟨?_, sortEntries_perm rec, rfl, rfl⟩
  rw [(Option.some.inj hrec).symm]
  exact sortEntries_keys_sorted_lt _ (recordOf_keys_nodup h r)

/-- Witness for C10 at the header `b,a`, whose record is rendered with the
keys in the order `a,b`. -/
theorem claim_C10_witness :
    ((sortEntries [("b","1"),("a","2")]).map Prod.fst).Pairwise strLt ∧
    List.Perm (sortEntries [("b","1"),("a","2")]) [("b","1"),("a","2")] ∧
    (getJSONFunc false).1 [("b","1"),("a","2")]
      = renderObj (sortEntries [("b","1"),("a","2")]) ∧
    (getJSONFunc true).1 [("b","1"),("a","2")]
      = "   " ++ renderObjIndent (sortEntries [("b","1"),("a","2")]) :=
  claim_C10_keys_sorted_both_modes ["b","a"] ["1","2"] [("b","1"),("a","2")]
    (by decide) (by decide)

theorem stripAux_out_pass {c : Char} (h1 : (c == '"') = false)
    (h2 : isWsChar c = false) (e : Bool) (cs : List Char) :
    stripAux false e (c :: cs) = c :: stripAux false false cs := by
  simp [stripAux, h1, h2]

theorem stripAux_out_ws {c : Char} (h2 : isWsChar c = true) (e : Bool)
    (cs : List Char) :
    stripAux false e (c :: cs) = stripAux false false cs := by
  have h1 : (c == '"') = false := by
    simp only [isWsChar, Bool.or_eq_true, beq_iff_eq] at h2
    rcases h2 with ((rfl | rfl) | rfl) | rfl <;> decide
  simp [stripAux, h1, h2]

theorem stripAux_in_plain {c : Char} (h1 : (c == '\\') = false)
    (h2 : (c == '"') = false) (cs : List Char) :
    stripAux true false (c :: cs) = c :: stripAux true false cs := by
  simp [stripAux, h1, h2]

theorem stripAux_in_backslash (cs : List Char) :
    stripAux true false ('\\' :: cs) = '\\' :: stripAux true true cs := by
  simp [stripAux]

theorem stripAux_in_esc (c : Char) (cs : List Char) :
    stripAux true true (c :: cs) = c :: stripAux true false cs := rfl

theorem stripAux_open (e : Bool) (cs : List Char) :
    stripAux false e ('"' :: cs) = '"' :: stripAux true false cs := by
  simp [stripAux]

theorem stripAux_close (cs : List Char) :
    stripAux true false ('"' :: cs) = '"' :: stripAux false false cs := by
  simp [stripAux]

theorem hexDigit_not_special (n : Nat) :
    ((hexDigit n == '\\') = false) ∧ ((hexDigit n == '"') = false) := by
  have hlt : n % 16 < 16 := Nat.mod_lt _ (by norm_num)
  unfold hexDigit
  set m := n % 16 with hm
  interval_cases m <;> exact ⟨by decide, by decide⟩

theorem stripAux_escapeChar (c : Char) (cs : List Char) :
    stripAux true false ((escapeChar c).data ++ cs)
      = (escapeChar c).data ++ stripAux true false cs := by
  by_cases h1 : c = '"'
  · subst h1
    show stripAux true false ('\\' :: '"' :: cs) = '\\' :: '"' :: stripAux true false cs
    rw [stripAux_in_backslash, stripAux_in_esc]
  · by_cases h2 : c = '\\'
    · subst h2
      show stripAux true false ('\\' :: '\\' :: cs) = '\\' :: '\\' :: stripAux true false cs
      rw [stripAux_in_backslash, stripAux_in_esc]
    · by_cases h3 : c = '\n'
      · subst h3
        show stripAux true false ('\\' :: 'n' :: cs) = '\\' :: 'n' :: stripAux true false cs
        rw [stripAux_in_backslash, stripAux_in_esc]
      · by_cases h4 : c = '\r'
        · subst h4
          show stripAux true false ('\\' :: 'r' :: cs) = '\\' :: 'r' :: stripAux true false cs
          rw [stripAux_in_backslash, stripAux_in_esc]
        · by_cases h5 : c = '\t'
          · subst h5
            show stripAux true false ('\\' :: 't' :: cs) = '\\' :: 't' :: stripAux true false cs
            rw [stripAux_in_backslash, stripAux_in_esc]
          · by_cases h6 : c = '<'
            · subst h6
              show stripAux true false ('\\' :: 'u' :: '0' :: '0' :: '3' :: 'c' :: cs)
                  = '\\' :: 'u' :: '0' :: '0' :: '3' :: 'c' :: stripAux true false cs
              rw [stripAux_in_backslash, stripAux_in_esc,
                stripAux_in_plain (by decide) (by decide),
                stripAux_in_plain (by decide) (by decide),
                stripAux_in_plain (by decide) (by decide),
                stripAux_in_plain (by decide) (by decide)]
            · by_cases h7 : c = '>'
              · subst h7
                show stripAux true false ('\\' :: 'u' :: '0' :: '0' :: '3' :: 'e' :: cs)
                    = '\\' :: 'u' :: '0' :: '0' :: '3' :: 'e' :: stripAux true false cs
                rw [stripAux_in_backslash, stripAux_in_esc,
                  stripAux_in_plain (by decide) (by decide),
                  stripAux_in_plain (by decide) (by decide),
                  stripAux_in_plain (by decide) (by decide),
                  stripAux_in_plain (by decide) (by decide)]
              · by_cases h8 : c = '&'
                · subst h8
                  show stripAux true false ('\\' :: 'u' :: '0' :: '0' :: '2' :: '6' :: cs)
                      = '\\' :: 'u' :: '0' :: '0' :: '2' :: '6' :: stripAux true false cs
                  rw [stripAux_in_backslash, stripAux_in_esc,
                    stripAux_in_plain (by decide) (by decide),
                    stripAux_in_plain (by decide) (by decide),
                    stripAux_in_plain (by decide) (by decide),
                    stripAux_in_plain (by decide) (by decide)]
                · by_cases h9 : c.toNat < 32
                  · have he : escapeChar c
                        = "\\u00" ++ String.mk [hexDigit (c.toNat / 16), hexDigit (c.toNat % 16)] := by
                      unfold escapeChar
                      rw [if_neg h1, if_neg h2, if_neg h3, if_neg h4, if_neg h5, if_neg h6,
                        if_neg h7, if_neg h8, if_pos h9]
                    rw [he]
                    show stripAux true false
                        ('\\' :: 'u' :: '0' :: '0' :: hexDigit (c.toNat / 16)
                          :: hexDigit (c.toNat % 16) :: cs)
                        = '\\' :: 'u' :: '0' :: '0' :: hexDigit (c.toNat / 16)
                            :: hexDigit (c.toNat % 16) :: stripAux true false cs
                    rw [stripAux_in_backslash, stripAux_in_esc,
                      stripAux_in_plain (by decide) (by decide),
                      stripAux_in_plain (by decide) (by decide),
                      stripAux_in_plain (hexDigit_not_special _).1 (hexDigit_not_special _).2,
                      stripAux_in_plain (hexDigit_not_special _).1 (hexDigit_not_special _).2]
                  · by_cases h10 : c.toNat = 8232
                    · have he : escapeChar c = "\\u2028" := by
                        unfold escapeChar
                        rw [if_neg h1, if_neg h2, if_neg h3, if_neg h4, if_neg h5, if_neg h6,
                          if_neg h7, if_neg h8, if_neg h9, if_pos h10]
                      rw [he]
                      show stripAux true false ('\\' :: 'u' :: '2' :: '0' :: '2' :: '8' :: cs)
                          = '\\' :: 'u' :: '2' :: '0' :: '2' :: '8' :: stripAux true false cs
                      rw [stripAux_in_backslash, stripAux_in_esc,
                        stripAux_in_plain (by decide) (by decide),
                        stripAux_in_plain (by decide) (by decide),
                        stripAux_in_plain (by decide) (by decide),
                        stripAux_in_plain (by decide) (by decide)]
                    · by_cases h11 : c.toNat = 8233
                      · have he : escapeChar c = "\\u2029" := by
                          unfold escapeChar
                          rw [if_neg h1, if_neg h2, if_neg h3, if_neg h4, if_neg h5, if_neg h6,
                            if_neg h7, if_neg h8, if_neg h9, if_neg h10, if_pos h11]
                        rw [he]
                        show stripAux true false ('\\' :: 'u' :: '2' :: '0' :: '2' :: '9' :: cs)
                            = '\\' :: 'u' :: '2' :: '0' :: '2' :: '9' :: stripAux true false cs
                        rw [stripAux_in_backslash, stripAux_in_esc,
                          stripAux_in_plain (by decide) (by decide),
                          stripAux_in_plain (by decide) (by decide),
                          stripAux_in_plain (by decide) (by decide),
                          stripAux_in_plain (by decide) (by decide)]
                      · have he : escapeChar c = String.mk [c] := by
                          unfold escapeChar
                          rw [if_neg h1, if_neg h2, if_neg h3, if_neg h4, if_neg h5, if_neg h6,
                            if_neg h7, if_neg h8, if_neg h9, if_neg h10, if_neg h11]
                        rw [he]
                        show stripAux true false (c :: cs) = c :: stripAux true false cs
                        exact stripAux_in_plain (beq_eq_false_iff_ne.mpr h2)
                          (beq_eq_false_iff_ne.mpr h1) cs

theorem stripAux_escData (l : List Char) (cs : List Char) :
    stripAux true false (escData l ++ cs) = escData l ++ stripAux true false cs := by
  induction l with
  | nil => rfl
  | cons c l ih =>
    show stripAux true false (((escapeChar c).data ++ escData l) ++ cs)
        = ((escapeChar c).data ++ escData l) ++ stripAux true false cs
    rw [List.append_assoc, stripAux_escapeChar, ih, List.append_assoc]

theorem outPiece_string (s : String) :
    OutPiece (escapeString s).data (escapeString s).data := by
  intro cs
  show stripAux false false ('"' :: ((escData s.data ++ ['"']) ++ cs))
      = ('"' :: (escData s.data ++ ['"'])) ++ stripAux false false cs
  rw [stripAux_open, List.append_assoc]
  show '"' :: stripAux true false (escData s.data ++ ('"' :: cs)) = _
  rw [stripAux_escData, stripAux_close]
  simp [List.append_assoc]

theorem outPiece_append {l1 o1 l2 o2 : List Char}
    (h1 : OutPiece l1 o1) (h2 : OutPiece l2 o2) :
    OutPiece (l1 ++ l2) (o1 ++ o2) := by
  intro cs
  rw [List.append_assoc, h1, h2, List.append_assoc]

theorem outPiece_lbracket : OutPiece ("[").data ("[").data := by
  intro cs
  show stripAux false false ('[' :: cs) = '[' :: stripAux false false cs
  rw [stripAux_out_pass (by decide) (by decide)]

theorem outPiece_rbracket : OutPiece ("]").data ("]").data := by
  intro cs
  show stripAux false false (']' :: cs) = ']' :: stripAux false false cs
  rw [stripAux_out_pass (by decide) (by decide)]

theorem outPiece_newline : OutPiece ("\n").data [] := by
  intro cs
  show stripAux false false ('\n' :: cs) = stripAux false false cs
  rw [stripAux_out_ws (by decide)]

theorem outPiece_comma_newline : OutPiece (",\n").data (",").data := by
  intro cs
  show stripAux false false (',' :: '\n' :: cs) = ',' :: stripAux false false cs
  rw [stripAux_out_pass (by decide) (by decide), stripAux_out_ws (by decide)]

theorem outPiece_three_spaces : OutPiece ("   ").data [] := by
  intro cs
  show stripAux false false (' ' :: ' ' :: ' ' :: cs) = stripAux false false cs
  rw [stripAux_out_ws (by decide), stripAux_out_ws (by decide), stripAux_out_ws (by decide)]

theorem outPiece_six_spaces : OutPiece ("      ").data [] := by
  intro cs
  show stripAux false false (' ' :: ' ' :: ' ' :: ' ' :: ' ' :: ' ' :: cs)
      = stripAux false false cs
  rw [stripAux_out_ws (by decide), stripAux_out_ws (by decide), stripAux_out_ws (by decide),
    stripAux_out_ws (by decide), stripAux_out_ws (by decide), stripAux_out_ws (by decide)]

theorem outPiece_open_brace_nl : OutPiece ("\x7b\n").data ("\x7b").data := by
  intro cs
  show stripAux false false ('\x7b' :: '\n' :: cs) = '\x7b' :: stripAux false false cs
  rw [stripAux_out_pass (by decide) (by decide), stripAux_out_ws (by decide)]

theorem outPiece_nl_close_brace : OutPiece ("\n   \x7d").data ("\x7d").data := by
  intro cs
  show stripAux false false ('\n' :: ' ' :: ' ' :: ' ' :: '\x7d' :: cs)
      = '\x7d' :: stripAux false false cs
  rw [stripAux_out_ws (by decide), stripAux_out_ws (by decide), stripAux_out_ws (by decide),
    stripAux_out_ws (by decide), stripAux_out_pass (by decide) (by decide)]

theorem outPiece_colon_space : OutPiece (": ").data (":").data := by
  intro cs
  show stripAux false false (':' :: ' ' :: cs) = ':' :: stripAux false false cs
  rw [stripAux_out_pass (by decide) (by decide), stripAux_out_ws (by decide)]

theorem joinSep_foldl_shift (sep : String) : ∀ (xs : List String) (a y : String),
    xs.foldl (fun acc z => acc ++ sep ++ z) (a ++ y)
      = a ++ xs.foldl (fun acc z => acc ++ sep ++ z) y := by
  intro xs
  induction xs with
  | nil => intro a y; rfl
  | cons x xs ih =>
    intro a y
    rw [List.foldl_cons, List.foldl_cons]
    have hassoc : a ++ y ++ sep ++ x = a ++ (y ++ sep ++ x) := by
      simp [String.append_assoc]
    rw [hassoc, ih]

theorem joinSep_cons_cons (sep x y : String) (ys : List String) :
    joinSep sep (x :: y :: ys) = (x ++ sep) ++ joinSep sep (y :: ys) := by
  show (y :: ys).foldl (fun acc z => acc ++ sep ++ z) x = _
  rw [List.foldl_cons]
  exact joinSep_foldl_shift sep ys (x ++ sep) y

theorem forall₂_map_map {α β γ : Type} {R : β → γ → Prop} (l : List α)
    (f : α → β) (g : α → γ) (h : ∀ a ∈ l, R (f a) (g a)) :
    List.Forall₂ R (l.map f) (l.map g) := by
  induction l with
  | nil => exact List.Forall₂.nil
  | cons a l ih =>
    exact List.Forall₂.cons (h a (List.mem_cons_self a l))
      (ih (fun b hb => h b (List.mem_cons_of_mem a hb)))

theorem outPiece_joinSep (sep sep' : String)
    (hsep : OutPiece sep.data sep'.data) :
    ∀ (l l' : List String),
    List.Forall₂ (fun x y => OutPiece x.data y.data) l l' →
    OutPiece (joinSep sep l).data (joinSep sep' l').data := by
  intro l l' h
  induction h with
  | nil => intro cs; rfl
  | @cons x y l l' hxy htail ih =>
    cases htail with
    | nil => exact hxy
    | @cons z w zs ws hzw hrest =>
      rw [joinSep_cons_cons, joinSep_cons_cons]
      have hcomp := outPiece_append (outPiece_append hxy hsep) ih
      intro cs
      have := hcomp cs
      simpa [String.data_append, List.append_assoc] using this

theorem outPiece_entry (p : String × String) :
    OutPiece ("      " ++ renderEntryIndent p).data (renderEntry p).data := by
  have hcomp := outPiece_append (outPiece_append
    (outPiece_append outPiece_six_spaces (outPiece_string p.1)) outPiece_colon_space)
    (outPiece_string p.2)
  intro cs
  have := hcomp cs
  simpa [renderEntryIndent, renderEntry, String.data_append, List.append_assoc] using this

theorem outPiece_obj (es : List (String × String)) :
    OutPiece ("   " ++ renderObjIndent es).data (renderObj es).data := by
  cases es with
  | nil =>
    intro cs
    show stripAux false false (' ' :: ' ' :: ' ' :: '\x7b' :: '\x7d' :: cs)
        = '\x7b' :: '\x7d' :: stripAux false false cs
    rw [stripAux_out_ws (by decide), stripAux_out_ws (by decide), stripAux_out_ws (by decide),
      stripAux_out_pass (by decide) (by decide), stripAux_out_pass (by decide) (by decide)]
  | cons e rest =>
    have hj := outPiece_joinSep (",\n") (",") outPiece_comma_newline
      ((e :: rest).map (fun p => "      " ++ renderEntryIndent p))
      ((e :: rest).map renderEntry)
      (forall₂_map_map (e :: rest) _ _ (fun p _ => outPiece_entry p))
    have hcomp := outPiece_append (outPiece_append
      (outPiece_append outPiece_three_spaces outPiece_open_brace_nl) hj)
      outPiece_nl_close_brace
    intro cs
    have := hcomp cs
    simpa [renderObjIndent, renderObj, String.data_append, List.append_assoc] using this

theorem outPiece_doc (objs : List (List (String × String))) :
    OutPiece (renderDocIndent objs).data (renderDoc objs).data := by
  have hj := outPiece_joinSep (",\n") (",") outPiece_comma_newline
    (objs.map (fun es => "   " ++ renderObjIndent es)) (objs.map renderObj)
    (forall₂_map_map objs _ _ (fun es _ => outPiece_obj es))
  have hcomp := outPiece_append (outPiece_append (outPiece_append
    (outPiece_append outPiece_lbracket outPiece_newline) hj) outPiece_newline)
    outPiece_rbracket
  intro cs
  have := hcomp cs
  simpa [renderDocIndent, renderDoc, String.data_append, List.append_assoc] using this

/-- C6: for every sequence of records, the pretty document and the compact
document are identical once JSON-insignificant whitespace (whitespace
outside string literals) is removed, so parsing the two as JSON yields the
same array of objects with the same key/value pairs. -/
theorem claim_C6_pretty_compact_equivalent (records : List Record) :
    stripJsonWs (writeJSONFile records true) = writeJSONFile records false := by
  rw [writeJSONFile_pretty_eq, writeJSONFile_compact_eq]
  apply String.ext
  show stripAux false false (renderDocIndent (records.map sortEntries)).data
      = (renderDoc (records.map sortEntries)).data
  have h := outPiece_doc (records.map sortEntries) []
  rw [List.append_nil, show stripAux false false [] = [] from rfl, List.append_nil] at h
  exact h
